import Mathlib

/-!
Verification development for the metriox-javascript web SDK
(event queue, flush scheduler, transport retry policy, dedupe gate,
property codec).  JavaScript code is shallowly embedded: machine
numbers are modelled exactly (integers as Int, finite doubles as Rat),
fallible adapter calls return Except, and the asynchronous client is a
step machine whose actions are the suspension points of the source.
-/

namespace Metriox

/-! ## Decimal numerals

JavaScript prints safe integers in plain decimal; we model that
printing with our own digit functions so that the JSON round trip is
provable. -/

def digitChar (d : Nat) : Char :=
  match d with
  | 0 => '0' | 1 => '1' | 2 => '2' | 3 => '3' | 4 => '4'
  | 5 => '5' | 6 => '6' | 7 => '7' | 8 => '8' | 9 => '9'
  | _ => '0'

def digitVal (c : Char) : Nat := c.toNat - 48

/-- Big-endian char digits to a natural number. -/
def parseNatDigits (cs : List Char) : Nat :=
  cs.foldl (fun a c => a * 10 + digitVal c) 0

/-- Little-endian digit chars of n, with fuel for structural recursion. -/
def natToCharsRev (fuel n : Nat) : List Char :=
  match fuel with
  | 0 => []
  | fuel + 1 => if n = 0 then [] else digitChar (n % 10) :: natToCharsRev fuel (n / 10)

def natToChars (n : Nat) : List Char :=
  if n = 0 then ['0'] else (natToCharsRev n n).reverse

def natToDecString (n : Nat) : String := String.mk (natToChars n)

def intToChars (n : Int) : List Char :=
  if n < 0 then '-' :: natToChars n.natAbs else natToChars n.natAbs

/-- Decimal rendering of an integer, as JavaScript String(n) renders a
safe integer. -/
def intToDecString (n : Int) : String := String.mk (intToChars n)

/-! ## JavaScript numbers and values

A finite double is carried as its exact rational value; NaN and the
infinities are separate constructors.  (Non-decimal float printing is
approximated by rational printing; no claim depends on the exact
rendering of a non-integer number.) -/

inductive JSNumber where
  | fin (q : Rat)
  | nan
  | posInf
  | negInf
deriving DecidableEq, Repr

def JSNumber.isInteger : JSNumber → Bool
  | .fin q => q.den = 1
  | _ => false

/-- Number.isSafeInteger: integer of magnitude at most 2^53 - 1. -/
def JSNumber.isSafeInteger : JSNumber → Bool
  | .fin q => q.den = 1 && q.num.natAbs ≤ 9007199254740991
  | _ => false

def JSNumber.isFiniteNum : JSNumber → Bool
  | .fin _ => true
  | _ => false

def JSNumber.intVal : JSNumber → Int
  | .fin q => q.num
  | _ => 0

/-- String(v) for a number: decimal for integral values, rational
rendering otherwise (model choice), plus the special spellings. -/
def JSNumber.render : JSNumber → String
  | .fin q => if q.den = 1 then intToDecString q.num else toString q
  | .nan => String.mk ['N', 'a', 'N']
  | .posInf => String.mk ['I', 'n', 'f', 'i', 'n', 'i', 't', 'y']
  | .negInf => String.mk ['-', 'I', 'n', 'f', 'i', 'n', 'i', 't', 'y']

/-- JavaScript values that can appear as event-property values or be
produced by JSON.parse.  Functions and symbols are outside the model. -/
inductive JSVal where
  | undef
  | null
  | bool (b : Bool)
  | num (x : JSNumber)
  | str (s : String)
  | obj (fields : List (String × JSVal))
  | arr (elems : List JSVal)
  | bigint (n : Int)

/-- JavaScript truthiness. -/
def truthyJS : JSVal → Bool
  | .undef => false
  | .null => false
  | .bool b => b
  | .num (.fin q) => q ≠ 0
  | .num .nan => false
  | .num _ => true
  | .str s => !s.isEmpty
  | .obj _ => true
  | .arr _ => true
  | .bigint n => n ≠ 0

/-- Property access obj.k: the last JSON field with that name wins;
undefined (none) on anything that is not an object with the field. -/
def getField (v : JSVal) (k : String) : Option JSVal :=
  match v with
  | .obj fields => fields.reverse.lookup k
  | _ => none

/-! ## JSON.parse

A recursive-descent parser over the character list, with fuel for
structural recursion.  Model restrictions (documented): numeric
literals are integer literals (the timestamps the gate stores);
fraction, exponent and unicode escapes make the parse fail. -/

def isJsonWs (c : Char) : Bool := c = ' ' || c = '\t' || c = '\n' || c = '\r'

def skipWs (cs : List Char) : List Char := cs.dropWhile isJsonWs

def escChar (c : Char) : Option Char :=
  match c with
  | '"' => some '"'
  | '\\' => some '\\'
  | '/' => some '/'
  | 'n' => some '\n'
  | 't' => some '\t'
  | 'r' => some '\r'
  | 'b' => some (Char.ofNat 8)
  | 'f' => some (Char.ofNat 12)
  | _ => none

/-- Body of a JSON string after the opening quote: decoded chars plus
the remainder after the closing quote. -/
def parseStrChars : List Char → Option (List Char × List Char)
  | [] => none
  | '"' :: rest => some ([], rest)
  | '\\' :: c :: rest =>
    match escChar c with
    | none => none
    | some e =>
      match parseStrChars rest with
      | none => none
      | some (s, r) => some (e :: s, r)
  | c :: rest =>
    match parseStrChars rest with
    | none => none
    | some (s, r) => some (c :: s, r)

/-- A run of decimal digits with the JSON leading-zero rule, rejecting
fraction and exponent continuations. -/
def parseNumAux (cs : List Char) : Option (Nat × List Char) :=
  let digs := cs.takeWhile Char.isDigit
  let rest := cs.dropWhile Char.isDigit
  if digs.isEmpty then none
  else if 1 < digs.length && digs.headI = '0' then none
  else
    match rest with
    | c :: _ => if c = '.' || c = 'e' || c = 'E' then none else some (parseNatDigits digs, rest)
    | [] => some (parseNatDigits digs, [])

def parseJsonNumber (cs : List Char) : Option (JSVal × List Char) :=
  match cs with
  | '-' :: rest =>
    match parseNumAux rest with
    | none => none
    | some (n, r) => some (.num (.fin (-(n : Rat))), r)
  | _ =>
    match parseNumAux cs with
    | none => none
    | some (n, r) => some (.num (.fin (n : Rat)), r)

inductive PReq where
  | val
  | arrItems
  | objItems

inductive PRes where
  | v (x : JSVal)
  | vs (xs : List JSVal)
  | fs (fields : List (String × JSVal))

/-- The parser: one fuel-structural function covering values, array
item lists and object field lists. -/
def parseF : Nat → PReq → List Char → Option (PRes × List Char)
  | 0, _, _ => none
  | fuel + 1, .val, cs =>
    match skipWs cs with
    | 'n' :: 'u' :: 'l' :: 'l' :: rest => some (.v .null, rest)
    | 't' :: 'r' :: 'u' :: 'e' :: rest => some (.v (.bool true), rest)
    | 'f' :: 'a' :: 'l' :: 's' :: 'e' :: rest => some (.v (.bool false), rest)
    | '"' :: rest =>
      match parseStrChars rest with
      | none => none
      | some (s, r) => some (.v (.str (String.mk s)), r)
    | '[' :: rest =>
      match skipWs rest with
      | ']' :: r => some (.v (.arr []), r)
      | cs' =>
        match parseF fuel .arrItems cs' with
        | some (.vs xs, r) => some (.v (.arr xs), r)
        | _ => none
    | '\x7b' :: rest =>
      match skipWs rest with
      | '\x7d' :: r => some (.v (.obj []), r)
      | cs' =>
        match parseF fuel .objItems cs' with
        | some (.fs fields, r) => some (.v (.obj fields), r)
        | _ => none
    | cs' =>
      match parseJsonNumber cs' with
      | none => none
      | some (x, r) => some (.v x, r)
  | fuel + 1, .arrItems, cs =>
    match parseF fuel .val cs with
    | some (.v x, r) =>
      (match skipWs r with
       | ',' :: r' =>
         match parseF fuel .arrItems r' with
         | some (.vs xs, r'') => some (.vs (x :: xs), r'')
         | _ => none
       | ']' :: r' => some (.vs [x], r')
       | _ => none)
    | _ => none
  | fuel + 1, .objItems, cs =>
    match skipWs cs with
    | '"' :: rest =>
      (match parseStrChars rest with
       | none => none
       | some (k, r) =>
         match skipWs r with
         | ':' :: r' =>
           (match parseF fuel .val r' with
            | some (.v x, r'') =>
              (match skipWs r'' with
               | ',' :: r3 =>
                 match parseF fuel .objItems r3 with
                 | some (.fs fields, r4) => some (.fs ((String.mk k, x) :: fields), r4)
                 | _ => none
               | '\x7d' :: r3 => some (.fs [(String.mk k, x)], r3)
               | _ => none)
            | _ => none)
         | _ => none)
    | _ => none

/-- JSON.parse: parse one value and require only whitespace after it. -/
def jsonParse (s : String) : Option JSVal :=
  match parseF (2 * s.data.length + 4) .val s.data with
  | some (.v x, rest) => if (skipWs rest).isEmpty then some x else none
  | _ => none

/-! ## Number coercion

Number(v) as used on the stored expiry field.  none models NaN.
Model restrictions (documented): string numerals are integer
numerals; object and array coercion is mapped to NaN. -/

def trimWsChars (cs : List Char) : List Char :=
  ((cs.dropWhile isJsonWs).reverse.dropWhile isJsonWs).reverse

def decimalValOf (cs : List Char) : Option Nat :=
  if cs.isEmpty then none
  else if cs.all Char.isDigit then some (parseNatDigits cs) else none

def strToNumber (s : String) : Option Rat :=
  match trimWsChars s.data with
  | [] => some 0
  | '-' :: rest => (decimalValOf rest).map (fun n => -(n : Rat))
  | '+' :: rest => (decimalValOf rest).map (fun n => (n : Rat))
  | t => (decimalValOf t).map (fun n => (n : Rat))

def toNumberJS : JSVal → Option Rat
  | .undef => none
  | .null => some 0
  | .bool b => some (if b then 1 else 0)
  | .num (.fin q) => some q
  | .num _ => none
  | .str s => strToNumber s
  | .obj _ => none
  | .arr _ => none
  | .bigint n => some (n : Rat)

/-! ## Dedupe gate (src/src/dedupe.ts)

Storage adapters may be synchronous or asynchronous and may throw;
the await-flattened embedding gives each call an Except result over
an explicit adapter state. -/

structure StorageAdapter (σ : Type) where
  get : σ → String → Except Unit (Option String)
  set : σ → String → String → Except Unit σ
  remove : Option (σ → String → Except Unit σ)

def PREFIX : String := "mx:dedupe:"

def makeKey (prfx key : String) : String := prfx ++ key

/-- shouldSendOnce from src/src/dedupe.ts: allow on absent, empty,
unparseable, falsy-expiry or expired records and on adapter read
failure; suppress otherwise (a NaN expiry comparison is never
expired, hence suppresses).  The ttlMs argument is unused, as in the
source. -/
def shouldSendOnce {σ : Type} (adapter : StorageAdapter σ) (st : σ) (key : String)
    (ttlMs : Int) (now : Int) : Bool :=
  match adapter.get st key with
  | .error _ => true
  | .ok none => true
  | .ok (some raw) =>
    if raw.isEmpty then true
    else
      match jsonParse raw with
      | none => true
      | some o =>
        match getField o ("expiry") with
        | none => true
        | some e =>
          if !truthyJS o || !truthyJS e then true
          else
            match toNumberJS e with
            | none => false
            | some x => decide ((now : Rat) ≥ x)

/-- The exact characters JSON.stringify produces for the record with
one integer expiry field. -/
def expiryPayloadChars (n : Int) : List Char :=
  '\x7b' :: '"' :: 'e' :: 'x' :: 'p' :: 'i' :: 'r' :: 'y' :: '"' :: ':' :: (intToChars n ++ ['\x7d'])

def expiryPayload (n : Int) : String := String.mk (expiryPayloadChars n)

/-- markSent from src/src/dedupe.ts: write the expiry record, swallow
write failures. -/
def markSent {σ : Type} (adapter : StorageAdapter σ) (st : σ) (key : String)
    (ttlMs : Int) (now : Int) : σ :=
  match adapter.set st key (expiryPayload (now + ttlMs)) with
  | .ok st' => st'
  | .error _ => st

/-! ## A faithful in-memory adapter (the map adapter of the tests) -/

def storeGet (st : List (String × String)) (k : String) : Option String := st.lookup k

def storeErase (st : List (String × String)) (k : String) : List (String × String) :=
  st.filter (fun p => p.1 ≠ k)

def storeSet (st : List (String × String)) (k v : String) : List (String × String) :=
  (k, v) :: storeErase st k

def memAdapter : StorageAdapter (List (String × String)) where
  get := fun st k => .ok (storeGet st k)
  set := fun st k v => .ok (storeSet st k v)
  remove := some (fun st k => .ok (storeErase st k))

/-! ## Property codec (splitProps, src/src/index.ts lines 79-114) -/

/-- clampString at a string argument (the only arguments splitProps
passes it): keep up to maxLen characters. -/
def clampString (s : String) (maxLen : Nat) : String :=
  if s.length ≤ maxLen then s else s.take maxLen

/-- Minimal JSON string quoting (backslash and quote escapes). -/
def quoteJson (s : String) : String :=
  String.mk ('"' :: (s.data.flatMap fun c =>
    if c = '"' then ['\\', '"'] else if c = '\\' then ['\\', '\\'] else [c]) ++ ['"'])

def jsNumJsonStr (x : JSNumber) : String :=
  match x with
  | .fin q => if q.den = 1 then intToDecString q.num else toString q
  | _ => String.mk ['n', 'u', 'l', 'l']

mutual

/-- JSON.stringify on a property value; none models a thrown
TypeError (a bigint anywhere in the value).  undefined fields of an
object are omitted; undefined array elements serialize as null. -/
def jsonStringifyJS : JSVal → Option String
  | .undef => none
  | .null => some ("null")
  | .bool true => some ("true")
  | .bool false => some ("false")
  | .num x => some (jsNumJsonStr x)
  | .str s => some (quoteJson s)
  | .bigint _ => none
  | .arr elems =>
    (jsonStringifyArr elems).map
      (fun parts => String.mk ('[' :: (String.intercalate (",") parts).data ++ [']']))
  | .obj fields =>
    (jsonStringifyObj fields).map
      (fun parts => String.mk ('\x7b' :: (String.intercalate (",") parts).data ++ ['\x7d']))

def jsonStringifyArr : List JSVal → Option (List String)
  | [] => some []
  | .undef :: rest => (jsonStringifyArr rest).map (fun parts => ("null") :: parts)
  | e :: rest =>
    match jsonStringifyJS e, jsonStringifyArr rest with
    | some j, some parts => some (j :: parts)
    | _, _ => none

def jsonStringifyObj : List (String × JSVal) → Option (List String)
  | [] => some []
  | (_, .undef) :: rest => jsonStringifyObj rest
  | (k, v) :: rest =>
    match jsonStringifyJS v, jsonStringifyObj rest with
    | some j, some parts => some ((quoteJson k ++ ":" ++ j) :: parts)
    | _, _ => none

end

mutual

/-- String(v) coercion used by the stringify fallback. -/
def jsToStringCoerce : JSVal → String
  | .undef => "undefined"
  | .null => "null"
  | .bool true => "true"
  | .bool false => "false"
  | .num x => x.render
  | .str s => s
  | .bigint n => intToDecString n
  | .obj _ => String.mk ['[', 'o', 'b', 'j', 'e', 'c', 't', ' ', 'O', 'b', 'j', 'e', 'c', 't', ']']
  | .arr elems => String.intercalate (",") (jsCoerceArr elems)

def jsCoerceArr : List JSVal → List String
  | [] => []
  | .undef :: rest => ("") :: jsCoerceArr rest
  | .null :: rest => ("") :: jsCoerceArr rest
  | e :: rest => jsToStringCoerce e :: jsCoerceArr rest

end

/-- The three typed buckets; a none bucket is an omitted key of the
returned object. -/
structure SplitOut where
  propsString : Option (List (String × String))
  propsLong : Option (List (String × Int))
  propsBool : Option (List (String × Bool))

/-- One iteration of the splitProps loop over an entry. -/
def splitStep (acc : List (String × String) × List (String × Int) × List (String × Bool))
    (kv : String × JSVal) :
    List (String × String) × List (String × Int) × List (String × Bool) :=
  match acc, kv with
  | (s, l, b), (k, v) =>
    match v with
    | .undef => (s, l, b)
    | .null => (s, l, b)
    | .str t => (s ++ [(k, clampString t 2048)], l, b)
    | .bool c => (s, l, b ++ [(k, c)])
    | .num x =>
      if x.isInteger && x.isSafeInteger then (s, l ++ [(k, x.intVal)], b)
      else (s ++ [(k, clampString (x.render) 2048)], l, b)
    | v' =>
      match jsonStringifyJS v' with
      | some j => (s ++ [(k, clampString j 2048)], l, b)
      | none => (s ++ [(k, clampString (jsToStringCoerce v') 2048)], l, b)

def presentIfNonempty {β : Type} (l : List β) : Option (List β) :=
  if l.isEmpty then none else some l

/-- splitProps from src/src/index.ts: classify entries into the three
buckets, omitting empty buckets; an absent props argument yields the
empty object. -/
def splitProps (props : Option (List (String × JSVal))) : SplitOut :=
  match props with
  | none => ⟨none, none, none⟩
  | some ps =>
    match ps.foldl splitStep ([], [], []) with
    | (s, l, b) => ⟨presentIfNonempty s, presentIfNonempty l, presentIfNonempty b⟩

/-! ## Transport (sendRequest, src/src/index.ts lines 133-159) -/

inductive FetchOutcome where
  | ok
  | fail
deriving DecidableEq, Repr

/-- The environment a delivery runs in: whether the endpoint is
same-origin, what the beacon attempt returns (none: unavailable or
threw), and the outcome of each fetch attempt. -/
structure TransportEnv where
  sameOrigin : Bool
  beacon : Option Bool
  fetch : Nat → FetchOutcome

structure SendRes where
  result : Bool
  attempts : Nat
  waits : List Nat
deriving DecidableEq, Repr

/-- The fetch retry loop: fuel counts the attempts still allowed,
a is the current attempt index. -/
def sendLoop (f : Nat → FetchOutcome) (retryCount retryBaseMs : Nat) :
    Nat → Nat → SendRes
  | 0, _ => ⟨false, 0, []⟩
  | fuel + 1, a =>
    if f a = .ok then ⟨true, 1, []⟩
    else
      match sendLoop f retryCount retryBaseMs fuel (a + 1) with
      | ⟨r, c, w⟩ =>
        ⟨r, c + 1, (if a < retryCount then [retryBaseMs * 2 ^ a] else []) ++ w⟩

/-- sendRequest: beacon fast path on same-origin success, otherwise
the retried fetch loop.  Every failure is swallowed; the outcome is
the boolean result. -/
def sendRequest (env : TransportEnv) (retryCount retryBaseMs : Nat) : SendRes :=
  if env.sameOrigin && env.beacon = some true then ⟨true, 0, []⟩
  else sendLoop env.fetch retryCount retryBaseMs (retryCount + 1) 0

/-! ## Client configuration and init (src/src/index.ts lines 246-260) -/

/-- The resolved options init builds from config with the DEFAULTS. -/
structure Opts where
  flushMs : Nat
  maxBatch : Nat
  maxQueue : Nat
  retryBaseMs : Nat
  retryCount : Nat
deriving DecidableEq, Repr

/-- The config fields init validates; an absent or non-number
telegramBotId is none. -/
structure JSConfig where
  projectId : Option String
  botId : Option String
  telegramBotId : Option JSNumber
  flushMs : Option Nat
  maxBatch : Option Nat
  maxQueue : Option Nat
  retryBaseMs : Option Nat
  retryCount : Option Nat

/-- JavaScript truthiness of an optional string field: undefined,
null and the empty string are falsy. -/
def truthyOptStr : Option String → Bool
  | none => false
  | some s => !s.isEmpty

def isPositiveFiniteNumber : Option JSNumber → Bool
  | some (.fin q) => decide (0 < q)
  | _ => false

/-- init validation and option resolution: throw (error) exactly when
projectId or botId is falsy or telegramBotId is not a positive finite
number; otherwise resolve options with the DEFAULTS. -/
def init (c : JSConfig) : Except String Opts :=
  if !truthyOptStr c.projectId || !truthyOptStr c.botId then
    .error ("projectId and botId required")
  else if !isPositiveFiniteNumber c.telegramBotId then
    .error ("telegramBotId (numeric) is required for WebApp auth verification")
  else
    .ok ⟨c.flushMs.getD 5000, c.maxBatch.getD 20, c.maxQueue.getD 500,
      c.retryBaseMs.getD 400, c.retryCount.getD 2⟩

/-! ## The queue and flush state machine (src/src/index.ts 262-391)

All mutation is synchronous between await points; the machine's
actions are the client entry points plus the completions of the two
suspension points inside flush (auth resolution and the transport
send).  The rejected flag is ghost state recording that some flush()
promise rejected (the auth provider threw and the exception escaped
past the finally block). -/

inductive Flight (α : Type) where
  | awaitingAuth (batch : List α)
  | awaitingSend (batch : List α)
deriving DecidableEq, Repr

def Flight.batch {α : Type} : Flight α → List α
  | .awaitingAuth b => b
  | .awaitingSend b => b

structure Sys (α : Type) where
  queue : List α
  flushing : Bool
  timer : Bool
  alive : Bool
  inflight : List (Flight α)
  rejected : Bool
deriving DecidableEq, Repr

def Sys.start {α : Type} : Sys α := ⟨[], false, false, true, [], false⟩

/-- scheduleFlush: idempotent; a no-op when dead or already armed. -/
def scheduleFlush {α : Type} (s : Sys α) : Sys α :=
  if s.alive = false ∨ s.timer = true then s else { s with timer := true }

/-- The synchronous prefix of flush(): guard, set the flushing flag,
splice up to maxBatch events, and suspend awaiting auth. -/
def flushCall {α : Type} (o : Opts) (s : Sys α) : Sys α :=
  if s.alive = false ∨ s.flushing = true ∨ s.queue.isEmpty = true then s
  else
    { s with
      flushing := true
      queue := s.queue.drop o.maxBatch
      inflight := s.inflight ++ [.awaitingAuth (s.queue.take o.maxBatch)] }

/-- The queue mutation of enqueue: drop-oldest eviction (splice) then
push. -/
def enq (o : Opts) (q : List α) (e : α) : List α :=
  (if o.maxQueue ≤ q.length then q.drop (q.length - o.maxQueue + 1) else q) ++ [e]

inductive Act (α : Type) where
  | enqueue (e : α)
  | callFlush
  | timerFire
  | authOk
  | authThrow
  | sendDone (ok : Bool)
  | shutdown
deriving DecidableEq, Repr

/-- One machine step.  authOk, authThrow and sendDone act on the
in-flight flush in the matching phase and are no-ops otherwise. -/
def step {α : Type} (o : Opts) (s : Sys α) : Act α → Sys α
  | .enqueue e =>
    if s.alive = false then s
    else
      let s' := { s with queue := enq o s.queue e }
      if o.maxBatch ≤ s'.queue.length then flushCall o s' else scheduleFlush s'
  | .callFlush => flushCall o s
  | .timerFire => if s.timer = true then flushCall o { s with timer := false } else s
  | .authOk =>
    match s.inflight with
    | .awaitingAuth b :: rest => { s with inflight := .awaitingSend b :: rest }
    | _ => s
  | .authThrow =>
    match s.inflight with
    | .awaitingAuth _ :: rest =>
      { s with inflight := rest, flushing := false, rejected := true }
    | _ => s
  | .sendDone ok =>
    match s.inflight with
    | .awaitingSend b :: rest =>
      if ok then
        let s1 := { s with inflight := rest }
        let s2 := if s1.queue.isEmpty then s1 else scheduleFlush s1
        { s2 with flushing := false }
      else
        let s1 := scheduleFlush { s with inflight := rest, queue := b ++ s.queue }
        { s1 with flushing := false }
    | _ => s
  | .shutdown => { s with alive := false, timer := false }

def run {α : Type} (o : Opts) (s : Sys α) (acts : List (Act α)) : Sys α :=
  acts.foldl (step o) s

/-! ## Dedupe-integrated facade

The repository's tests (index.test.ts with the dedupe cases, the
react LogOnMount tests) and README exercise a client whose track
consults the dedupe gate and which exposes clearDedupeKey, but that
integration is absent from src/src/index.ts; the glue below is
modelled from the spec and connects the source-embedded gate
(shouldSendOnce, markSent) with the source-embedded queue machine. -/

/-- Modelled from the spec: the DedupeGate admin clear, which the
source repository lacks.  Attempt adapter.remove when exposed,
otherwise overwrite the key with an already-expired record; best
effort, never throws. -/
def adminClear {σ : Type} (adapter : StorageAdapter σ) (st : σ) (key : String) (now : Int) : σ :=
  match adapter.remove with
  | some rem =>
    match rem st (makeKey PREFIX key) with
    | .ok st' => st'
    | .error _ => st
  | none =>
    match adapter.set st (makeKey PREFIX key) (expiryPayload now) with
    | .ok st' => st'
    | .error _ => st

/-- Modelled from the spec: the client operation clearDedupeKey
delegates to the admin clear of the gate. -/
def clearDedupeKey {σ : Type} (adapter : StorageAdapter σ) (st : σ) (key : String) (now : Int) : σ :=
  adminClear adapter st key now

/-- Modelled from the spec: the default logical dedupe key
projectId:eventName unless the caller supplies an explicit key. -/
def deriveKey (custom : Option String) (projectId eventName : String) : String :=
  custom.getD (projectId ++ ":" ++ eventName)

/-- Modelled from the spec: a track call that requests dedupe (mode
once or session selects the adapter).  The facade first asks the gate;
a suppressed event is dropped silently; an allowed event is enqueued
and, on successful admission (live client), markSent is recorded. -/
def trackDedupe {σ α : Type} (adapter : StorageAdapter σ) (st : σ) (o : Opts) (s : Sys α)
    (evt : α) (logicalKey : String) (ttl now : Int) : σ × Sys α :=
  let key := makeKey PREFIX logicalKey
  if shouldSendOnce adapter st key ttl now then
    if s.alive then (markSent adapter st key ttl now, step o s (.enqueue evt))
    else (st, s)
  else (st, s)

/-! ## Statement helpers -/

/-- The last n elements of a list, in order. -/
def lastN {β : Type} (l : List β) (n : Nat) : List β := l.drop (l.length - n)

def exceptOk {ε β : Type} : Except ε β → Bool
  | .ok _ => true
  | .error _ => false

/-- A stored value parses to a record whose expiry field is an actual
number (the well-formedness the spec attributes to dedupe records). -/
def numericExpiryRecord (raw : String) : Bool :=
  match jsonParse raw with
  | some o =>
    match getField o ("expiry") with
    | some (.num _) => true
    | _ => false
  | none => false

/-- The suppression condition of the source decision tree: the stored
string is nonempty, parses, is truthy with a truthy expiry field, and
the numeric coercion of that field is either NaN or still in the
future. -/
def suppressCond (raw : String) (now : Int) : Bool :=
  !raw.isEmpty &&
    match jsonParse raw with
    | none => false
    | some o =>
      match getField o ("expiry") with
      | none => false
      | some e =>
        truthyJS o && truthyJS e &&
          match toNumberJS e with
          | none => true
          | some x => decide ((now : Rat) < x)

/-- The per-entry bucket rules of the property codec, as the spec
states them: strings clamped to 2048; booleans kept; safe integers
kept; other numbers rendered and clamped; other values JSON-serialized
and clamped with a rendering fallback; null and undefined dropped. -/
def ruleString (kv : String × JSVal) : Option (String × String) :=
  match kv with
  | (k, .str t) => some (k, clampString t 2048)
  | (k, .num x) =>
    if x.isInteger && x.isSafeInteger then none
    else some (k, clampString (x.render) 2048)
  | (k, .obj fields) =>
    match jsonStringifyJS (.obj fields) with
    | some j => some (k, clampString j 2048)
    | none => some (k, clampString (jsToStringCoerce (.obj fields)) 2048)
  | (k, .arr elems) =>
    match jsonStringifyJS (.arr elems) with
    | some j => some (k, clampString j 2048)
    | none => some (k, clampString (jsToStringCoerce (.arr elems)) 2048)
  | (k, .bigint n) =>
    match jsonStringifyJS (.bigint n) with
    | some j => some (k, clampString j 2048)
    | none => some (k, clampString (jsToStringCoerce (.bigint n)) 2048)
  | _ => none

def ruleLong (kv : String × JSVal) : Option (String × Int) :=
  match kv with
  | (k, .num x) => if x.isInteger && x.isSafeInteger then some (k, x.intVal) else none
  | _ => none

def ruleBool (kv : String × JSVal) : Option (String × Bool) :=
  match kv with
  | (k, .bool b) => some (k, b)
  | _ => none

/-- The flush guard discipline: the flushing flag is set exactly while
a flush is in flight, there is at most one in-flight flush, and every
in-flight batch respects maxBatch. -/
def InvFlight {α : Type} (o : Opts) (s : Sys α) : Prop :=
  (s.flushing = true ↔ s.inflight ≠ []) ∧
  s.inflight.length ≤ 1 ∧
  ∀ fl ∈ s.inflight, (Flight.batch fl).length ≤ o.maxBatch

/-- Queue bounds: at most maxQueue + maxBatch overall, and at most
maxQueue while a flush is in flight. -/
def InvQueue {α : Type} (o : Opts) (s : Sys α) : Prop :=
  s.queue.length ≤ o.maxQueue + o.maxBatch ∧
  (s.inflight ≠ [] → s.queue.length ≤ o.maxQueue)

end Metriox

namespace Metriox

/-! ## Theorems -/

theorem parseNatDigits_append (l : List Char) (c : Char) :
    parseNatDigits (l ++ [c]) = parseNatDigits l * 10 + digitVal c := by
  simp [parseNatDigits, List.foldl_append]

theorem digitVal_digitChar (d : Nat) (h : d < 10) : digitVal (digitChar d) = d := by
  interval_cases d <;> rfl

theorem parseNatDigits_natToCharsRev :
    ∀ fuel n, n ≤ fuel → parseNatDigits ((natToCharsRev fuel n).reverse) = n := by
  intro fuel
  induction fuel with
  | zero =>
    intro n hn
    interval_cases n
    rfl
  | succ m ih =>
    intro n hn
    by_cases h0 : n = 0
    · subst h0; rfl
    · have hdiv : n / 10 < n := Nat.div_lt_self (Nat.pos_of_ne_zero h0) (by omega)
      have hle : n / 10 ≤ m := by omega
      simp only [natToCharsRev, h0, if_false, List.reverse_cons]
      rw [parseNatDigits_append, ih (n / 10) hle, digitVal_digitChar (n % 10) (Nat.mod_lt n (by omega))]
      omega

theorem parseNatDigits_natToChars (n : Nat) : parseNatDigits (natToChars n) = n := by
  by_cases h0 : n = 0
  · subst h0; rfl
  · simp only [natToChars, h0, if_false]
    exact parseNatDigits_natToCharsRev n n le_rfl

theorem mem_natToCharsRev_isDigit :
    ∀ fuel n c, c ∈ natToCharsRev fuel n → c.isDigit = true := by
  intro fuel
  induction fuel with
  | zero => intro n c hc; simp [natToCharsRev] at hc
  | succ m ih =>
    intro n c hc
    by_cases h0 : n = 0
    · simp [natToCharsRev, h0] at hc
    · simp only [natToCharsRev, h0, if_false, List.mem_cons] at hc
      rcases hc with hc | hc
      · subst hc
        have : n % 10 < 10 := Nat.mod_lt n (by omega)
        interval_cases h : n % 10 <;> rfl
      · exact ih _ _ hc

theorem mem_natToChars_isDigit (n : Nat) (c : Char) (hc : c ∈ natToChars n) :
    c.isDigit = true := by
  by_cases h0 : n = 0
  · subst h0; simp [natToChars] at hc; subst hc; rfl
  · simp only [natToChars, h0, if_false, List.mem_reverse] at hc
    exact mem_natToCharsRev_isDigit n n c hc

theorem natToChars_ne_nil (n : Nat) : natToChars n ≠ [] := by
  by_cases h0 : n = 0
  · subst h0; simp [natToChars]
  · simp only [natToChars, h0, if_false, ne_eq, List.reverse_eq_nil_iff]
    have hpos : 0 < n := Nat.pos_of_ne_zero h0
    cases n with
    | zero => omega
    | succ m => simp [natToCharsRev, h0]

theorem getLast_natToCharsRev :
    ∀ fuel n, 0 < n → n ≤ fuel →
      ∃ d, 0 < d ∧ d < 10 ∧ (natToCharsRev fuel n).getLast? = some (digitChar d) := by
  intro fuel
  induction fuel with
  | zero => intro n h1 h2; omega
  | succ m ih =>
    intro n h1 h2
    have h0 : n ≠ 0 := by omega
    simp only [natToCharsRev, h0, if_false]
    by_cases hlt : n < 10
    · have : n / 10 = 0 := Nat.div_eq_of_lt hlt
      refine ⟨n, h1, hlt, ?_⟩
      have hnil : natToCharsRev m (n / 10) = [] := by
        cases m with
        | zero => rfl
        | succ k => simp [natToCharsRev, this]
      rw [hnil]
      have : n % 10 = n := Nat.mod_eq_of_lt hlt
      simp [this]
    · have hdivpos : 0 < n / 10 := Nat.div_pos (by omega) (by omega)
      have hdivle : n / 10 ≤ m := by
        have : n / 10 < n := Nat.div_lt_self (by omega) (by omega)
        omega
      obtain ⟨d, hd1, hd2, hd3⟩ := ih (n / 10) hdivpos hdivle
      refine ⟨d, hd1, hd2, ?_⟩
      rcases hrest : natToCharsRev m (n / 10) with _ | ⟨r1, rs⟩
      · rw [hrest] at hd3; simp at hd3
      · rw [hrest] at hd3
        rw [List.getLast?_cons_cons]
        exact hd3

theorem headI_natToChars_ne_zero (n : Nat) (hlen : 1 < (natToChars n).length) :
    (natToChars n).headI ≠ '0' := by
  by_cases h0 : n = 0
  · subst h0; simp [natToChars] at hlen
  · simp only [natToChars, h0, if_false] at hlen ⊢
    obtain ⟨d, hd1, hd2, hd3⟩ := getLast_natToCharsRev n n (Nat.pos_of_ne_zero h0) le_rfl
    have hh : (natToCharsRev n n).reverse.head? = some (digitChar d) := by
      rw [List.head?_reverse]
      exact hd3
    have : (natToCharsRev n n).reverse.headI = digitChar d := by
      rcases hrev : (natToCharsRev n n).reverse with _ | ⟨c, cs⟩
      · rw [hrev] at hh; simp at hh
      · rw [hrev] at hh; simp at hh; simp [hh]
    rw [this]
    interval_cases d <;> decide

theorem takeWhile_append_of_forall {p : Char → Bool} :
    ∀ (l r : List Char), (∀ c ∈ l, p c = true) → (∀ c, r.head? = some c → p c = false) →
      (l ++ r).takeWhile p = l ∧ (l ++ r).dropWhile p = r := by
  intro l
  induction l with
  | nil =>
    intro r _ hr
    rcases r with _ | ⟨c, cs⟩
    · simp
    · have := hr c rfl
      simp [List.takeWhile, List.dropWhile, this]
  | cons a t ih =>
    intro r hl hr
    have ha : p a = true := hl a (by simp)
    have := ih r (fun c hc => hl c (by simp [hc])) hr
    simp [List.takeWhile_cons, List.dropWhile_cons, ha, this.1, this.2]

theorem parseNumAux_natToChars (m : Nat) :
    parseNumAux (natToChars m ++ ['\x7d']) = some (m, ['\x7d']) := by
  have hdig : ∀ c ∈ natToChars m, c.isDigit = true := fun c hc => mem_natToChars_isDigit m c hc
  have hbrace : ∀ c, (['\x7d'] : List Char).head? = some c → c.isDigit = false := by
    intro c hc
    simp at hc
    subst hc
    rfl
  obtain ⟨htake, hdrop⟩ := takeWhile_append_of_forall (natToChars m) ['\x7d'] hdig hbrace
  unfold parseNumAux
  simp only [htake, hdrop]
  have hne : (natToChars m).isEmpty = false := by
    rcases h : natToChars m with _ | ⟨c, cs⟩
    · exact absurd h (natToChars_ne_nil m)
    · rfl
  simp only [hne, Bool.false_eq_true, if_false]
  have hlead : (1 < (natToChars m).length && (natToChars m).headI = '0') = false := by
    by_cases hlen : 1 < (natToChars m).length
    · have := headI_natToChars_ne_zero m hlen
      simp [hlen, this]
    · simp [hlen]
  simp only [hlead, Bool.false_eq_true, if_false]
  simp [parseNatDigits_natToChars]

theorem parseJsonNumber_intToChars (n : Int) :
    parseJsonNumber (intToChars n ++ ['\x7d']) =
      some (.num (.fin (n : Rat)), ['\x7d']) := by
  have hcast : ((n.natAbs : Nat) : Rat) = ((|n| : Int) : Rat) := Int.cast_natAbs
  by_cases hneg : n < 0
  · simp only [intToChars, hneg, if_true, List.cons_append]
    simp only [parseJsonNumber, parseNumAux_natToChars]
    have hval : -((n.natAbs : Nat) : Rat) = (n : Rat) := by
      rw [hcast, abs_of_neg hneg]
      push_cast
      ring
    rw [hval]
  · have habs : ((n.natAbs : Nat) : Rat) = (n : Rat) := by
      rw [hcast, abs_of_nonneg (by omega : (0 : Int) ≤ n)]
    simp only [intToChars, hneg, if_false]
    rcases hchars : natToChars n.natAbs with _ | ⟨c, cs⟩
    · exact absurd hchars (natToChars_ne_nil n.natAbs)
    · have hcdig : c.isDigit = true := by
        apply mem_natToChars_isDigit n.natAbs
        rw [hchars]; simp
      have hcne : c ≠ '-' := by
        intro h
        rw [h] at hcdig
        exact absurd hcdig (by decide)
      have hnum : parseNumAux (c :: (cs ++ ['\x7d'])) = some (n.natAbs, ['\x7d']) := by
        have h2 := parseNumAux_natToChars n.natAbs
        rw [hchars] at h2
        simpa using h2
      simp only [List.cons_append, parseJsonNumber]
      split
      · rename_i heq
        injection heq with h1 _
        exact absurd h1 hcne
      · simp [hnum, habs]

theorem skipWs_cons (c : Char) (t : List Char) (h : isJsonWs c = false) :
    skipWs (c :: t) = c :: t := by
  simp [skipWs, List.dropWhile_cons, h]

theorem parseStrChars_expiry (rest : List Char) :
    parseStrChars ('e' :: 'x' :: 'p' :: 'i' :: 'r' :: 'y' :: '"' :: rest) =
      some (['e', 'x', 'p', 'i', 'r', 'y'], rest) := by
  simp [parseStrChars]

theorem isDigit_not_ws (c : Char) (h : c.isDigit = true) : isJsonWs c = false := by
  by_contra hws
  have hws' : isJsonWs c = true := by
    cases hx : isJsonWs c
    · exact absurd hx hws
    · rfl
  simp only [isJsonWs, Bool.or_eq_true, decide_eq_true_eq] at hws'
  rcases hws' with ((h1 | h2) | h3) | h4 <;> subst_vars <;> exact absurd h (by decide)

theorem intToChars_ne_nil (n : Int) : intToChars n ≠ [] := by
  unfold intToChars
  split
  · simp
  · exact natToChars_ne_nil n.natAbs

theorem parseF_val_number (n : Int) (f : Nat) :
    parseF (f + 1) .val (intToChars n ++ ['\x7d']) =
      some (.v (.num (.fin (n : Rat))), ['\x7d']) := by
  rcases hchars : intToChars n with _ | ⟨c, t⟩
  · exact absurd hchars (intToChars_ne_nil n)
  · have hc : c = '-' ∨ c.isDigit = true := by
      unfold intToChars at hchars
      split at hchars
      · left
        injection hchars with h1 _
        exact h1.symm
      · right
        apply mem_natToChars_isDigit n.natAbs
        rw [hchars]
        simp
    have hcws : isJsonWs c = false := by
      rcases hc with hc | hc
      · subst hc; rfl
      · exact isDigit_not_ws c hc
    have hnum : parseJsonNumber (c :: (t ++ ['\x7d'])) =
        some (.num (.fin (n : Rat)), ['\x7d']) := by
      have h2 := parseJsonNumber_intToChars n
      rw [hchars] at h2
      simpa using h2
    have hcnot : c ≠ 'n' ∧ c ≠ 't' ∧ c ≠ 'f' ∧ c ≠ '"' ∧ c ≠ '[' ∧ c ≠ '\x7b' := by
      rcases hc with hc | hc
      · subst hc
        exact ⟨by decide, by decide, by decide, by decide, by decide, by decide⟩
      · refine ⟨?_, ?_, ?_, ?_, ?_, ?_⟩ <;>
          (intro he; subst he; exact absurd hc (by decide))
    obtain ⟨hn1, hn2, hn3, hn4, hn5, hn6⟩ := hcnot
    simp only [List.cons_append, parseF]
    rw [skipWs_cons c _ hcws]
    split
    · rename_i heq; injection heq with h1 _; exact absurd h1 hn1
    · rename_i heq; injection heq with h1 _; exact absurd h1 hn2
    · rename_i heq; injection heq with h1 _; exact absurd h1 hn3
    · rename_i heq; injection heq with h1 _; exact absurd h1 hn4
    · rename_i heq; injection heq with h1 _; exact absurd h1 hn5
    · rename_i heq; injection heq with h1 _; exact absurd h1 hn6
    · rw [hnum]

theorem parseF_objItems_expiry (n : Int) (g : Nat)
    (hval : parseF g .val (intToChars n ++ ['\x7d']) =
      some (.v (.num (.fin (n : Rat))), ['\x7d'])) :
    parseF (g + 1) .objItems
        ('"' :: 'e' :: 'x' :: 'p' :: 'i' :: 'r' :: 'y' :: '"' :: ':' ::
          (intToChars n ++ ['\x7d'])) =
      some (.fs [("expiry", .num (.fin (n : Rat)))], []) := by
  conv_lhs => whnf
  rw [hval]
  rfl

theorem parseF_val_expiryPayload (n : Int) (g : Nat)
    (hobj : parseF g .objItems
        ('"' :: 'e' :: 'x' :: 'p' :: 'i' :: 'r' :: 'y' :: '"' :: ':' ::
          (intToChars n ++ ['\x7d'])) =
      some (.fs [("expiry", .num (.fin (n : Rat)))], [])) :
    parseF (g + 1) .val (expiryPayloadChars n) =
      some (.v (.obj [("expiry", .num (.fin (n : Rat)))]), []) := by
  conv_lhs => whnf
  rw [hobj]

/-- jsonParse recovers the record markSent stores, for every integer
expiry value. -/
theorem jsonParse_expiryPayload (n : Int) :
    jsonParse (expiryPayload n) = some (.obj [("expiry", .num (.fin (n : Rat)))]) := by
  have hdata : (expiryPayload n).data = expiryPayloadChars n := rfl
  unfold jsonParse
  rw [hdata]
  obtain ⟨m, hm⟩ : ∃ m, 2 * (expiryPayloadChars n).length + 4 = (m + 1) + 1 + 1 :=
    ⟨2 * (expiryPayloadChars n).length + 1, by omega⟩
  rw [hm]
  rw [parseF_val_expiryPayload n (m + 1 + 1)
    (parseF_objItems_expiry n (m + 1) (parseF_val_number n m))]
  rfl

theorem shouldSendOnce_some_raw {σ : Type} (adapter : StorageAdapter σ) (st : σ) (key : String)
    (t now : Int) (raw : String) (hget : adapter.get st key = .ok (some raw)) :
    shouldSendOnce adapter st key t now =
      (if raw.isEmpty then true
       else
         match jsonParse raw with
         | none => true
         | some o =>
           match getField o ("expiry") with
           | none => true
           | some e =>
             if !truthyJS o || !truthyJS e then true
             else
               match toNumberJS e with
               | none => false
               | some x => decide ((now : Rat) ≥ x)) := by
  unfold shouldSendOnce
  rw [hget]

theorem expiryPayload_isEmpty (n : Int) : (expiryPayload n).isEmpty = false := by
  by_contra hx
  have hx' : (expiryPayload n).isEmpty = true := by
    cases h : (expiryPayload n).isEmpty
    · exact absurd h hx
    · rfl
  have heq := (String.isEmpty_iff _).mp hx'
  have hd := congrArg String.data heq
  have hnil : String.data ("") = ([] : List Char) := rfl
  rw [hnil] at hd
  simp [expiryPayload, expiryPayloadChars] at hd

theorem getField_expiry_single (e : JSVal) :
    getField (.obj [("expiry", e)]) ("expiry") = some e := by
  simp [getField, List.lookup]

theorem shouldSendOnce_after_markSent (st : List (String × String)) (key : String)
    (ttl now t' now' : Int) (hpos : now + ttl ≠ 0) :
    shouldSendOnce memAdapter (markSent memAdapter st key ttl now) key t' now' =
      decide ((now' : Rat) ≥ ((now + ttl : Int) : Rat)) := by
  have hget : memAdapter.get (markSent memAdapter st key ttl now) key =
      .ok (some (expiryPayload (now + ttl))) := by
    show Except.ok (storeGet (storeSet st key (expiryPayload (now + ttl))) key) = _
    simp [storeGet, storeSet, List.lookup]
  rw [shouldSendOnce_some_raw memAdapter _ key t' now' _ hget]
  rw [expiryPayload_isEmpty]
  simp only [Bool.false_eq_true, if_false, jsonParse_expiryPayload, getField_expiry_single]
  have hq : ((now : Rat) + (ttl : Rat)) ≠ 0 := by
    intro h
    apply hpos
    exact_mod_cast h
  simp [truthyJS, toNumberJS, hq]

/-- C9: against a faithful adapter, shouldSendOnce allows before any
markSent for the key; markSent writes exactly the JSON record with
expiry now + ttlMs; afterwards shouldSendOnce suppresses at every
instant strictly before that expiry and allows again once it is
reached. -/
theorem C9_dedupe_roundtrip (st : List (String × String)) (key : String) (ttl now : Int)
    (hnow : 0 ≤ now) (httl : 0 < ttl) :
    (storeGet st key = none → ∀ t n, shouldSendOnce memAdapter st key t n = true) ∧
    storeGet (markSent memAdapter st key ttl now) key = some (expiryPayload (now + ttl)) ∧
    (∀ t' now', now' < now + ttl →
      shouldSendOnce memAdapter (markSent memAdapter st key ttl now) key t' now' = false) ∧
    (∀ t' now', now + ttl ≤ now' →
      shouldSendOnce memAdapter (markSent memAdapter st key ttl now) key t' now' = true) := by
  have hpos : now + ttl ≠ 0 := by omega
  refine ⟨?_, ?_, ?_, ?_⟩
  · intro h t n
    unfold shouldSendOnce
    rw [show memAdapter.get st key = Except.ok none by simp [memAdapter, h]]
  · show storeGet (storeSet st key (expiryPayload (now + ttl))) key = _
    simp [storeGet, storeSet, List.lookup]
  · intro t' now' hlt
    rw [shouldSendOnce_after_markSent st key ttl now t' now' hpos]
    simp only [decide_eq_false_iff_not, not_le]
    exact_mod_cast hlt
  · intro t' now' hge
    rw [shouldSendOnce_after_markSent st key ttl now t' now' hpos]
    simp only [decide_eq_true_eq, ge_iff_le]
    exact_mod_cast hge

/-- Witness for C9 at a concrete store, key, TTL and clock values. -/
theorem C9_dedupe_roundtrip_witness :
    (0 : Int) ≤ 0 ∧ (0 : Int) < 100 ∧
      shouldSendOnce memAdapter [] ("k") 100 0 = true ∧
      storeGet (markSent memAdapter [] ("k") 100 0) ("k") = some (expiryPayload 100) ∧
      shouldSendOnce memAdapter (markSent memAdapter [] ("k") 100 0) ("k") 7 50 = false ∧
      shouldSendOnce memAdapter (markSent memAdapter [] ("k") 100 0) ("k") 7 100 = true := by
  have h := C9_dedupe_roundtrip [] ("k") 100 0 (by decide) (by decide)
  exact ⟨by decide, by decide, h.1 (by decide) 100 0, by simpa using h.2.1,
    h.2.2.1 7 50 (by decide), h.2.2.2 7 100 (by decide)⟩

/-- C4 (amended): shouldSendOnce returns true whenever the stored
value is absent, empty, not parseable, lacking an expiry field, or
numerically expired, and whenever the adapter read throws; it returns
false exactly when the stored string parses to a truthy value with a
truthy expiry field whose Number coercion is NaN or still in the
future (so a truthy non-numeric expiry also suppresses, which the
original wording's well-formedness condition excluded). -/
theorem C4_shouldSendOnce_cases {σ : Type} (adapter : StorageAdapter σ) (st : σ)
    (key : String) (ttl now : Int) :
    (adapter.get st key = .error () → shouldSendOnce adapter st key ttl now = true) ∧
    (adapter.get st key = .ok none → shouldSendOnce adapter st key ttl now = true) ∧
    (∀ raw, adapter.get st key = .ok (some raw) → jsonParse raw = none →
      shouldSendOnce adapter st key ttl now = true) ∧
    (∀ raw v e x, adapter.get st key = .ok (some raw) → jsonParse raw = some v →
      getField v ("expiry") = some e → toNumberJS e = some x → x ≤ (now : Rat) →
      shouldSendOnce adapter st key ttl now = true) ∧
    (∀ raw, adapter.get st key = .ok (some raw) →
      (shouldSendOnce adapter st key ttl now = false ↔ suppressCond raw now = true)) := by
  refine ⟨?_, ?_, ?_, ?_, ?_⟩
  · intro h
    unfold shouldSendOnce
    rw [h]
  · intro h
    unfold shouldSendOnce
    rw [h]
  · intro raw hget hparse
    rw [shouldSendOnce_some_raw adapter st key ttl now raw hget]
    by_cases he : raw.isEmpty
    · simp [he]
    · simp [he, hparse]
  · intro raw v e x hget hparse hfield hnum hle
    rw [shouldSendOnce_some_raw adapter st key ttl now raw hget]
    by_cases he : raw.isEmpty
    · simp [he]
    · simp only [he, Bool.false_eq_true, if_false, hparse, hfield, hnum]
      by_cases ht : (!truthyJS v || !truthyJS e) = true
      · simp [ht]
      · simp only [ht, Bool.false_eq_true, if_false]
        simp only [ge_iff_le, decide_eq_true_eq]
        exact hle
  · intro raw hget
    rw [shouldSendOnce_some_raw adapter st key ttl now raw hget]
    unfold suppressCond
    by_cases he : raw.isEmpty
    · simp [he]
    · simp only [he, Bool.false_eq_true, if_false, Bool.not_false, Bool.true_and]
      cases hp : jsonParse raw with
      | none => simp
      | some v =>
        cases hf : getField v ("expiry") with
        | none => simp [hf]
        | some e =>
          cases htv : truthyJS v with
          | false => simp [hf, htv]
          | true =>
            cases hte : truthyJS e with
            | false => simp [hf, htv, hte]
            | true =>
              cases hn : toNumberJS e with
              | none => simp [hf, htv, hte, hn]
              | some x =>
                simp only [hf, htv, hte, hn, Bool.not_true, Bool.or_self,
                  Bool.false_or, Bool.true_and, Bool.false_eq_true, if_false]
                constructor
                · intro hd
                  rw [decide_eq_false_iff_not, not_le] at hd
                  exact decide_eq_true hd
                · intro hd
                  rw [decide_eq_true_eq] at hd
                  rw [decide_eq_false_iff_not, not_le]
                  exact hd

/-- C4 counterexample: the stored record with a truthy non-numeric
expiry field is suppressed (shouldSendOnce returns false) although no
record with a numeric expiry exists, contradicting the claim that
false is returned only for a well-formed unexpired record. -/
theorem C4_counterexample :
    shouldSendOnce memAdapter [("k", "\x7b\"expiry\":\"zzz\"\x7d")] ("k") 1000 0 = false ∧
    numericExpiryRecord ("\x7b\"expiry\":\"zzz\"\x7d") = false := by
  exact ⟨by decide, by decide⟩

/-- Witness for C4 at concrete adapter outcomes. -/
theorem C4_shouldSendOnce_cases_witness :
    memAdapter.get [] ("k") = .ok none ∧
    shouldSendOnce memAdapter [] ("k") 5 0 = true ∧
    memAdapter.get [("k", "nope")] ("k") = .ok (some ("nope")) ∧
    jsonParse ("nope") = none ∧
    shouldSendOnce memAdapter [("k", "nope")] ("k") 5 0 = true := by
  refine ⟨by rfl, (C4_shouldSendOnce_cases memAdapter [] ("k") 5 0).2.1 (by rfl),
    by rfl, by rfl, ?_⟩
  exact (C4_shouldSendOnce_cases memAdapter [("k", "nope")] ("k") 5 0).2.2.1
    ("nope") (by rfl) (by rfl)

/-- C10: the result of shouldSendOnce does not depend on its ttlMs
argument: for a fixed adapter, state, key and instant, any two TTL
values give the same decision. -/
theorem C10_shouldSendOnce_ttl_independent {σ : Type} (adapter : StorageAdapter σ) (st : σ)
    (key : String) (t1 t2 now : Int) :
    shouldSendOnce adapter st key t1 now = shouldSendOnce adapter st key t2 now := rfl

theorem splitStep_foldl :
    ∀ (ps : List (String × JSVal)) (s : List (String × String)) (l : List (String × Int))
      (b : List (String × Bool)),
      ps.foldl splitStep (s, l, b) =
        (s ++ ps.filterMap ruleString, l ++ ps.filterMap ruleLong,
          b ++ ps.filterMap ruleBool) := by
  intro ps
  induction ps with
  | nil => intro s l b; simp
  | cons kv rest ih =>
    intro s l b
    obtain ⟨k, v⟩ := kv
    cases v with
    | undef => simp [splitStep, ruleString, ruleLong, ruleBool, ih]
    | null => simp [splitStep, ruleString, ruleLong, ruleBool, ih]
    | bool c => simp [splitStep, ruleString, ruleLong, ruleBool, ih]
    | str t => simp [splitStep, ruleString, ruleLong, ruleBool, ih]
    | num x =>
      by_cases hx : (x.isInteger && x.isSafeInteger) = true
      · simp [splitStep, ruleString, ruleLong, ruleBool, hx, ih]
      · simp [splitStep, ruleString, ruleLong, ruleBool, hx, ih]
    | obj fields =>
      cases hj : jsonStringifyJS (.obj fields) with
      | none => simp [splitStep, ruleString, ruleLong, ruleBool, hj, ih]
      | some j => simp [splitStep, ruleString, ruleLong, ruleBool, hj, ih]
    | arr elems =>
      cases hj : jsonStringifyJS (.arr elems) with
      | none => simp [splitStep, ruleString, ruleLong, ruleBool, hj, ih]
      | some j => simp [splitStep, ruleString, ruleLong, ruleBool, hj, ih]
    | bigint n =>
      cases hj : jsonStringifyJS (.bigint n) with
      | none => simp [splitStep, ruleString, ruleLong, ruleBool, hj, ih]
      | some j => simp [splitStep, ruleString, ruleLong, ruleBool, hj, ih]

/-- C7: splitProps is total (a Lean function) and classifies each
entry by the spec rules: null and undefined dropped, strings clamped
to 2048, booleans to the boolean bucket, safe integers to the integer
bucket, all other numbers rendered and clamped, any other value
JSON-serialized and clamped with a clamped string-coercion fallback
when serialization throws; buckets that end up empty are omitted. -/
theorem C7_splitProps_classification :
    splitProps none = ⟨none, none, none⟩ ∧
    ∀ ps, splitProps (some ps) =
      ⟨presentIfNonempty (ps.filterMap ruleString),
       presentIfNonempty (ps.filterMap ruleLong),
       presentIfNonempty (ps.filterMap ruleBool)⟩ := by
  refine ⟨rfl, ?_⟩
  intro ps
  unfold splitProps
  conv_lhs => whnf
  rw [splitStep_foldl ps [] [] []]
  simp

theorem sendLoop_attempts_pos (f : Nat → FetchOutcome) (rc base m a : Nat) :
    1 ≤ (sendLoop f rc base (m + 1) a).attempts := by
  simp only [sendLoop]
  split <;> simp

theorem sendLoop_spec (f : Nat → FetchOutcome) (rc base : Nat) :
    ∀ fuel a, a + fuel = rc + 1 →
      (sendLoop f rc base fuel a).attempts ≤ fuel ∧
      ((sendLoop f rc base fuel a).result = true ↔ ∃ j, a ≤ j ∧ j ≤ rc ∧ f j = .ok) ∧
      (sendLoop f rc base fuel a).waits =
        (List.range' a ((sendLoop f rc base fuel a).attempts - 1)).map
          (fun i => base * 2 ^ i) := by
  intro fuel
  induction fuel with
  | zero =>
    intro a ha
    refine ⟨by simp [sendLoop], ?_, by simp [sendLoop]⟩
    simp only [sendLoop, Bool.false_eq_true, false_iff]
    intro ⟨j, h1, h2, _⟩
    omega
  | succ m ih =>
    intro a ha
    by_cases hok : f a = .ok
    · refine ⟨by simp [sendLoop, hok], ?_, by simp [sendLoop, hok]⟩
      simp only [sendLoop, hok, if_true, true_iff]
      exact ⟨a, le_rfl, by omega, hok⟩
    · have hih := ih (a + 1) (by omega)
      refine ⟨?_, ?_, ?_⟩
      · simp only [sendLoop, hok, if_false]
        have := hih.1
        omega
      · simp only [sendLoop, hok, if_false]
        rw [hih.2.1]
        constructor
        · intro ⟨j, h1, h2, h3⟩
          exact ⟨j, by omega, h2, h3⟩
        · intro ⟨j, h1, h2, h3⟩
          refine ⟨j, ?_, h2, h3⟩
          rcases Nat.eq_or_lt_of_le h1 with h | h
          · exact absurd (h ▸ h3) hok
          · omega
      · simp only [sendLoop, hok, if_false]
        rw [hih.2.2]
        by_cases har : a < rc
        · have hm : 1 ≤ m := by omega
          obtain ⟨m', hm'⟩ : ∃ m', m = m' + 1 := ⟨m - 1, by omega⟩
          subst hm'
          have hpos := sendLoop_attempts_pos f rc base m' (a + 1)
          simp only [har, if_true, List.singleton_append, Nat.add_sub_cancel]
          obtain ⟨c, hc⟩ : ∃ c, (sendLoop f rc base (m' + 1) (a + 1)).attempts = c + 1 :=
            ⟨(sendLoop f rc base (m' + 1) (a + 1)).attempts - 1, by omega⟩
          rw [hc]
          simp only [Nat.add_sub_cancel]
          rw [List.range'_succ]
          simp
        · have hm : m = 0 := by omega
          subst hm
          simp only [har, if_false, List.nil_append, sendLoop]
          simp

theorem sendLoop_first (f : Nat → FetchOutcome) (rc base : Nat) :
    ∀ fuel a j, a ≤ j → j < a + fuel → f j = .ok → (∀ i, a ≤ i → i < j → f i ≠ .ok) →
      (sendLoop f rc base fuel a).result = true ∧
      (sendLoop f rc base fuel a).attempts = j - a + 1 := by
  intro fuel
  induction fuel with
  | zero => intro a j h1 h2; omega
  | succ m ih =>
    intro a j h1 h2 hok hall
    rcases Nat.eq_or_lt_of_le h1 with heq | hlt
    · subst heq
      simp [sendLoop, hok]
    · have haf : f a ≠ .ok := hall a le_rfl hlt
      have := ih (a + 1) j (by omega) (by omega) hok (fun i hi1 hi2 => hall i (by omega) hi2)
      simp only [sendLoop, haf, if_false]
      refine ⟨this.1, ?_⟩
      rw [this.2]
      omega

/-- C8: the transport sender makes at most retryCount + 1 fetch
attempts, waits retryBaseMs * 2^attempt between consecutive attempts
counted from 0, returns true exactly when the beacon fast path or
some attempt within the budget succeeds (stopping at the first
success), and returns false only when every attempt fails; it never
throws, reporting every outcome through the boolean result. -/
theorem C8_sendRequest_policy (env : TransportEnv) (rc base : Nat) :
    (sendRequest env rc base).attempts ≤ rc + 1 ∧
    (sendRequest env rc base).waits =
      (List.range' 0 ((sendRequest env rc base).attempts - 1)).map (fun i => base * 2 ^ i) ∧
    ((sendRequest env rc base).result = true ↔
      (env.sameOrigin = true ∧ env.beacon = some true) ∨ ∃ j, j ≤ rc ∧ env.fetch j = .ok) ∧
    (∀ j, j ≤ rc → env.fetch j = .ok → (∀ i, i < j → env.fetch i ≠ .ok) →
      ¬(env.sameOrigin = true ∧ env.beacon = some true) →
      (sendRequest env rc base).result = true ∧ (sendRequest env rc base).attempts = j + 1) := by
  by_cases hb : (env.sameOrigin && env.beacon = some true) = true
  · have hb' : env.sameOrigin = true ∧ env.beacon = some true := by
      simpa using hb
    unfold sendRequest
    rw [if_pos hb]
    refine ⟨by simp, by simp, by simp [hb'], ?_⟩
    intro j _ _ _ hcon
    exact absurd hb' hcon
  · have hb' : ¬(env.sameOrigin = true ∧ env.beacon = some true) := by
      intro ⟨h1, h2⟩
      exact hb (by simp [h1, h2])
    unfold sendRequest
    rw [if_neg (by simpa using hb)]
    have hspec := sendLoop_spec env.fetch rc base (rc + 1) 0 (by omega)
    refine ⟨hspec.1, hspec.2.2, ?_, ?_⟩
    · rw [hspec.2.1]
      constructor
      · intro ⟨j, _, h2, h3⟩
        exact Or.inr ⟨j, h2, h3⟩
      · intro h
        rcases h with h | ⟨j, h2, h3⟩
        · exact absurd h hb'
        · exact ⟨j, by omega, h2, h3⟩
    · intro j hj hok hall _
      have := sendLoop_first env.fetch rc base (rc + 1) 0 j (by omega) (by omega) hok
        (fun i _ hi2 => hall i hi2)
      simpa using this

theorem invFlight_flushCall {α : Type} (o : Opts) (s : Sys α) (h : InvFlight o s) :
    InvFlight o (flushCall o s) := by
  obtain ⟨h1, h2, h3⟩ := h
  unfold flushCall
  split
  · exact ⟨h1, h2, h3⟩
  · rename_i hg
    push_neg at hg
    obtain ⟨ha, hf, hq⟩ := hg
    have hfl : s.flushing = false := by
      cases hfc : s.flushing
      · rfl
      · exact absurd hfc hf
    have hinf : s.inflight = [] := by
      by_contra hne
      rw [h1.mpr hne] at hfl
      exact Bool.true_eq_false.mp hfl
    refine ⟨?_, ?_, ?_⟩
    · simp [hinf]
    · simp [hinf]
    · intro fl hfl'
      rw [hinf] at hfl'
      simp at hfl'
      subst hfl'
      simp [Flight.batch, List.length_take]

theorem invFlight_step {α : Type} (o : Opts) (s : Sys α) (a : Act α) (h : InvFlight o s) :
    InvFlight o (step o s a) := by
  obtain ⟨h1, h2, h3⟩ := h
  have hsched : ∀ t : Sys α, InvFlight o t → InvFlight o (scheduleFlush t) := by
    intro t ht
    unfold scheduleFlush
    split
    · exact ht
    · exact ht
  cases a with
  | enqueue e =>
    simp only [step]
    split
    · exact ⟨h1, h2, h3⟩
    · split
      · exact invFlight_flushCall o _ ⟨h1, h2, h3⟩
      · exact hsched _ ⟨h1, h2, h3⟩
  | callFlush => exact invFlight_flushCall o s ⟨h1, h2, h3⟩
  | timerFire =>
    simp only [step]
    split
    · exact invFlight_flushCall o _ ⟨h1, h2, h3⟩
    · exact ⟨h1, h2, h3⟩
  | authOk =>
    simp only [step]
    split
    · rename_i b rest heq
      refine ⟨?_, ?_, ?_⟩
      · constructor
        · intro _
          simp
        · intro _
          exact h1.mpr (by rw [heq]; simp)
      · have hl := h2
        rw [heq] at hl
        simpa using hl
      · intro fl hfl
        simp only [List.mem_cons] at hfl
        rcases hfl with hfl | hfl
        · subst hfl
          have hb := h3 (.awaitingAuth b) (by rw [heq]; simp)
          simpa [Flight.batch] using hb
        · exact h3 fl (by rw [heq]; simp [hfl])
    · exact ⟨h1, h2, h3⟩
  | authThrow =>
    simp only [step]
    split
    · rename_i b rest heq
      have hrest : rest = [] := by
        rw [heq] at h2
        simpa using h2
      subst hrest
      exact ⟨by simp, by simp, by simp⟩
    · exact ⟨h1, h2, h3⟩
  | sendDone ok =>
    simp only [step]
    split
    · rename_i b rest heq
      have hrest : rest = [] := by
        rw [heq] at h2
        simpa using h2
      subst hrest
      split
      · split
        · exact ⟨by simp, by simp, by simp⟩
        · refine ⟨?_, ?_, ?_⟩ <;> (unfold scheduleFlush; split <;> simp)
      · refine ⟨?_, ?_, ?_⟩ <;> (unfold scheduleFlush; split <;> simp)
    · exact ⟨h1, h2, h3⟩
  | shutdown => exact ⟨h1, h2, h3⟩

theorem invFlight_start {α : Type} (o : Opts) : InvFlight o (Sys.start (α := α)) := by
  refine ⟨by simp [Sys.start], by simp [Sys.start], ?_⟩
  intro fl hfl
  simp [Sys.start] at hfl

theorem invFlight_run {α : Type} (o : Opts) (acts : List (Act α)) :
    ∀ s, InvFlight o s → InvFlight o (run o s acts) := by
  induction acts with
  | nil => intro s h; exact h
  | cons a rest ih =>
    intro s h
    exact ih (step o s a) (invFlight_step o s a h)

theorem enq_length_le {α : Type} (o : Opts) (hQ : 1 ≤ o.maxQueue) (q : List α) (e : α) :
    (enq o q e).length ≤ o.maxQueue := by
  unfold enq
  split
  · rename_i h
    simp only [List.length_append, List.length_drop, List.length_singleton]
    omega
  · rename_i h
    simp only [List.length_append, List.length_singleton]
    omega

theorem invQueue_step {α : Type} (o : Opts) (hQ : 1 ≤ o.maxQueue) (s : Sys α) (a : Act α)
    (hf : InvFlight o s) (h : InvQueue o s) : InvQueue o (step o s a) := by
  obtain ⟨h1f, h2f, h3f⟩ := hf
  obtain ⟨hq1, hq2⟩ := h
  cases a with
  | enqueue e =>
    simp only [step]
    split
    · exact ⟨hq1, hq2⟩
    · have hlen : (enq o s.queue e).length ≤ o.maxQueue := enq_length_le o hQ s.queue e
      split
      · unfold flushCall
        split
        · exact ⟨le_trans hlen (by omega), fun _ => hlen⟩
        · refine ⟨?_, fun _ => ?_⟩ <;>
            (simp only [List.length_drop]; omega)
      · unfold scheduleFlush
        split
        · exact ⟨le_trans hlen (by omega), fun _ => hlen⟩
        · exact ⟨le_trans hlen (by omega), fun _ => hlen⟩
  | callFlush =>
    simp only [step]
    unfold flushCall
    split
    · exact ⟨hq1, hq2⟩
    · refine ⟨?_, fun _ => ?_⟩ <;>
        (simp only [List.length_drop]; omega)
  | timerFire =>
    simp only [step]
    split
    · unfold flushCall
      split
      · exact ⟨hq1, hq2⟩
      · refine ⟨?_, fun _ => ?_⟩ <;>
          (simp only [List.length_drop]; omega)
    · exact ⟨hq1, hq2⟩
  | authOk =>
    simp only [step]
    split
    · rename_i b rest heq
      exact ⟨hq1, fun _ => hq2 (by rw [heq]; simp)⟩
    · exact ⟨hq1, hq2⟩
  | authThrow =>
    simp only [step]
    split
    · rename_i b rest heq
      exact ⟨hq1, fun _ => hq2 (by rw [heq]; simp)⟩
    · exact ⟨hq1, hq2⟩
  | sendDone ok =>
    simp only [step]
    split
    · rename_i b rest heq
      have hb : b.length ≤ o.maxBatch := by
        have hm := h3f (.awaitingSend b) (by rw [heq]; simp)
        simpa [Flight.batch] using hm
      have hqle : s.queue.length ≤ o.maxQueue := hq2 (by rw [heq]; simp)
      have hrest : rest = [] := by
        rw [heq] at h2f
        simpa using h2f
      subst hrest
      split
      · split
        · exact ⟨hq1, fun _ => hqle⟩
        · unfold scheduleFlush
          split
          · exact ⟨hq1, fun _ => hqle⟩
          · exact ⟨hq1, fun _ => hqle⟩
      · unfold scheduleFlush
        split
        · refine ⟨?_, fun hne => ?_⟩
          · simp only [List.length_append]; omega
          · exact absurd rfl hne
        · refine ⟨?_, fun hne => ?_⟩
          · simp only [List.length_append]; omega
          · exact absurd rfl hne
    · exact ⟨hq1, hq2⟩
  | shutdown => exact ⟨hq1, hq2⟩

theorem invQueue_run {α : Type} (o : Opts) (hQ : 1 ≤ o.maxQueue) (acts : List (Act α)) :
    ∀ s, InvFlight o s → InvQueue o s → InvQueue o (run o s acts) := by
  induction acts with
  | nil => intro s _ h; exact h
  | cons a rest ih =>
    intro s hf h
    exact ih (step o s a) (invFlight_step o s a hf) (invQueue_step o hQ s a hf h)

theorem foldl_enq_lastN {α : Type} (o : Opts) (hQ : 1 ≤ o.maxQueue) :
    ∀ es : List α, es.foldl (enq o) [] = lastN es o.maxQueue := by
  intro es
  induction es using List.reverseRecOn with
  | nil => simp [lastN]
  | append_singleton es e ih =>
    rw [List.foldl_append, List.foldl_cons, List.foldl_nil, ih]
    unfold enq lastN
    by_cases hlt : es.length < o.maxQueue
    · have hd0 : es.length - o.maxQueue = 0 := by omega
      have hd1 : (es ++ [e]).length - o.maxQueue = 0 := by
        simp only [List.length_append, List.length_singleton]
        omega
      rw [hd0, hd1, List.drop_zero, List.drop_zero]
      rw [if_neg (by omega)]
    · push_neg at hlt
      have hlen : (es.drop (es.length - o.maxQueue)).length = o.maxQueue := by
        simp only [List.length_drop]
        omega
      have hguard : o.maxQueue ≤ (es.drop (es.length - o.maxQueue)).length := by
        rw [hlen]
      rw [if_pos hguard, hlen]
      have h1 : o.maxQueue - o.maxQueue + 1 = 1 := by omega
      rw [h1, List.drop_drop]
      have h2 : (es ++ [e]).length - o.maxQueue = es.length + 1 - o.maxQueue := by
        simp only [List.length_append, List.length_singleton]
      rw [h2, List.drop_append_of_le_length (by omega)]
      congr 2
      omega

/-- C2 (amended): for maxQueue at least 1, every enqueue leaves the
queue at most maxQueue long, and a pure enqueue sequence retains
exactly the most recently inserted maxQueue events in original order;
the failure requeue of flush, however, re-inserts the removed batch
without eviction, so across all reachable states the queue is bounded
only by maxQueue + maxBatch. -/
theorem C2_queue_bound_retention {α : Type} (o : Opts) (hQ : 1 ≤ o.maxQueue) :
    (∀ (q : List α) (e : α), (enq o q e).length ≤ o.maxQueue) ∧
    (∀ es : List α, es.foldl (enq o) [] = lastN es o.maxQueue) ∧
    (∀ acts : List (Act α),
      (run o Sys.start acts).queue.length ≤ o.maxQueue + o.maxBatch) := by
  refine ⟨fun q e => enq_length_le o hQ q e, foldl_enq_lastN o hQ, ?_⟩
  intro acts
  have hstart : InvQueue o (Sys.start (α := α)) := by
    constructor
    · simp [Sys.start]
    · intro h
      exact absurd rfl h
  exact (invQueue_run o hQ acts Sys.start (invFlight_start o) hstart).1

/-- Witness for C2 at concrete options and a concrete trace. -/
theorem C2_queue_bound_retention_witness :
    1 ≤ (⟨5000, 1, 2, 400, 2⟩ : Opts).maxQueue ∧
    (enq (⟨5000, 1, 2, 400, 2⟩ : Opts) [7, 8] (9 : Nat)).length ≤ 2 ∧
    [3, 4, 5].foldl (enq (⟨5000, 1, 2, 400, 2⟩ : Opts)) [] = lastN [3, 4, 5] 2 ∧
    (run (⟨5000, 1, 2, 400, 2⟩ : Opts) Sys.start
      [Act.enqueue (3 : Nat), Act.enqueue 4]).queue.length ≤ 2 + 1 := by
  have h := C2_queue_bound_retention (α := Nat) (⟨5000, 1, 2, 400, 2⟩ : Opts) (by decide)
  exact ⟨by decide, h.1 [7, 8] 9, h.2.1 [3, 4, 5],
    h.2.2 [Act.enqueue 3, Act.enqueue 4]⟩

/-- C2 counterexample: a client whose init admitted maxQueue = 1 and
maxBatch = 1 reaches queue length 2 — above maxQueue — right after the
failure requeue mutation of flush, because the requeue applies no
eviction. -/
theorem C2_counterexample :
    init ⟨some ("p"), some ("b"), some (.fin 1), none, some 1, some 1, none, none⟩ =
      .ok ⟨5000, 1, 1, 400, 2⟩ ∧
    (run (⟨5000, 1, 1, 400, 2⟩ : Opts) Sys.start
        [.enqueue (10 : Nat), .authOk, .enqueue 20, .sendDone false]).queue = [10, 20] ∧
    (⟨5000, 1, 1, 400, 2⟩ : Opts).maxQueue <
      (run (⟨5000, 1, 1, 400, 2⟩ : Opts) Sys.start
        [.enqueue (10 : Nat), .authOk, .enqueue 20, .sendDone false]).queue.length := by
  refine ⟨rfl, by decide, by decide⟩

/-- C3: flush is a no-op when the client is dead, already flushing or
the queue is empty (the state is unchanged, so no batch is removed and
no send is started); every reachable state has at most one flush in
flight; and the step completing a flush — send success, send failure,
or an exception thrown during auth resolution — leaves the flushing
flag false. -/
theorem C3_flush_reentrancy {α : Type} (o : Opts) :
    (∀ s : Sys α, (s.alive = false ∨ s.flushing = true ∨ s.queue.isEmpty = true) →
      flushCall o s = s) ∧
    (∀ acts : List (Act α), (run o Sys.start acts).inflight.length ≤ 1) ∧
    (∀ (acts : List (Act α)) (b : List α) (ok : Bool),
      (run o Sys.start acts).inflight = [.awaitingSend b] →
      (step o (run o Sys.start acts) (.sendDone ok)).flushing = false) ∧
    (∀ (acts : List (Act α)) (b : List α),
      (run o Sys.start acts).inflight = [.awaitingAuth b] →
      (step o (run o Sys.start acts) .authThrow).flushing = false) := by
  refine ⟨?_, ?_, ?_, ?_⟩
  · intro s h
    unfold flushCall
    rw [if_pos h]
  · intro acts
    exact (invFlight_run o acts Sys.start (invFlight_start o)).2.1
  · intro acts b ok heq
    simp only [step, heq]
    cases ok
    · rfl
    · simp only [Bool.true_eq_false]
      split
      · rfl
      · rfl
  · intro acts b heq
    simp only [step, heq]

/-- Witness for C3 at concrete options, a dead client and a concrete
trace with an in-flight send. -/
theorem C3_flush_reentrancy_witness :
    ((⟨[5], false, false, false, [], false⟩ : Sys Nat).alive = false ∨
      (⟨[5], false, false, false, [], false⟩ : Sys Nat).flushing = true ∨
      (⟨[5], false, false, false, [], false⟩ : Sys Nat).queue.isEmpty = true) ∧
    flushCall (⟨5000, 20, 500, 400, 2⟩ : Opts) (⟨[5], false, false, false, [], false⟩ : Sys Nat) =
      (⟨[5], false, false, false, [], false⟩ : Sys Nat) ∧
    (run (⟨5000, 20, 500, 400, 2⟩ : Opts) Sys.start
      [.enqueue (5 : Nat), .callFlush, .authOk]).inflight = [.awaitingSend [5]] ∧
    (step (⟨5000, 20, 500, 400, 2⟩ : Opts)
      (run (⟨5000, 20, 500, 400, 2⟩ : Opts) Sys.start [.enqueue (5 : Nat), .callFlush, .authOk])
      (.sendDone true)).flushing = false := by
  have h := C3_flush_reentrancy (α := Nat) (⟨5000, 20, 500, 400, 2⟩ : Opts)
  exact ⟨Or.inl rfl, h.1 _ (Or.inl rfl), by decide, h.2.2.1 _ [5] true (by decide)⟩

/-- C5 (amended): when the transport send of the in-flight flush
reports failure, the exact removed batch is back at the front of the
queue in original order, followed by everything enqueued during the
send; and if the client is still alive a flush is scheduled — a
shutdown during the send suppresses the rescheduling. -/
theorem scheduleFlush_queue {α : Type} (s : Sys α) : (scheduleFlush s).queue = s.queue := by
  unfold scheduleFlush
  split
  · rfl
  · rfl

theorem scheduleFlush_alive {α : Type} (s : Sys α) : (scheduleFlush s).alive = s.alive := by
  unfold scheduleFlush
  split
  · rfl
  · rfl

theorem scheduleFlush_timer_of_alive {α : Type} (s : Sys α) (h : s.alive = true) :
    (scheduleFlush s).timer = true := by
  unfold scheduleFlush
  split
  · rename_i hc
    rcases hc with hc | hc
    · exact absurd h (by simp [hc])
    · exact hc
  · rfl

theorem C5_failure_requeue {α : Type} (o : Opts) (s : Sys α) (b : List α)
    (h : s.inflight = [.awaitingSend b]) :
    (step o s (.sendDone false)).queue = b ++ s.queue ∧
    ((step o s (.sendDone false)).alive = true → (step o s (.sendDone false)).timer = true) := by
  have hstep : step o s (.sendDone false) =
      { scheduleFlush { s with inflight := ([] : List (Flight α)), queue := b ++ s.queue } with
          flushing := false } := by
    simp only [step, h]
    rfl
  refine ⟨?_, ?_⟩
  · rw [hstep]
    exact scheduleFlush_queue _
  · rw [hstep]
    generalize ({ s with inflight := ([] : List (Flight α)), queue := b ++ s.queue } : Sys α) = Y
    intro halive
    refine scheduleFlush_timer_of_alive Y ?_
    rw [← scheduleFlush_alive Y]
    exact halive

/-- Witness for C5 at a concrete in-flight state. -/
theorem C5_failure_requeue_witness :
    (⟨[9], true, false, true, [.awaitingSend [5, 6]], false⟩ : Sys Nat).inflight =
      [.awaitingSend [5, 6]] ∧
    (step (⟨5000, 20, 500, 400, 2⟩ : Opts)
      (⟨[9], true, false, true, [.awaitingSend [5, 6]], false⟩ : Sys Nat)
      (.sendDone false)).queue = [5, 6, 9] ∧
    (step (⟨5000, 20, 500, 400, 2⟩ : Opts)
      (⟨[9], true, false, true, [.awaitingSend [5, 6]], false⟩ : Sys Nat)
      (.sendDone false)).timer = true := by
  have h := C5_failure_requeue (⟨5000, 20, 500, 400, 2⟩ : Opts)
    (⟨[9], true, false, true, [.awaitingSend [5, 6]], false⟩ : Sys Nat) [5, 6] rfl
  exact ⟨rfl, by rw [h.1]; rfl, h.2 rfl⟩

/-- C5 counterexample: a shutdown during the send cancels scheduling,
so after a transport failure the batch is requeued but no flush is
rescheduled and none can ever run, against the unconditional
rescheduling the claim states. -/
theorem C5_counterexample :
    (run (⟨5000, 20, 500, 400, 2⟩ : Opts) Sys.start
      [.enqueue (5 : Nat), .callFlush, .authOk, .shutdown, .sendDone false]).queue = [5] ∧
    (run (⟨5000, 20, 500, 400, 2⟩ : Opts) Sys.start
      [.enqueue (5 : Nat), .callFlush, .authOk, .shutdown, .sendDone false]).timer = false ∧
    (run (⟨5000, 20, 500, 400, 2⟩ : Opts) Sys.start
      [.enqueue (5 : Nat), .callFlush, .authOk, .shutdown, .sendDone false]).alive = false := by
  refine ⟨by decide, by decide, by decide⟩

theorem flushCall_rejected {α : Type} (o : Opts) (s : Sys α) :
    (flushCall o s).rejected = s.rejected := by
  unfold flushCall
  split
  · rfl
  · rfl

theorem scheduleFlush_rejected {α : Type} (s : Sys α) :
    (scheduleFlush s).rejected = s.rejected := by
  unfold scheduleFlush
  split
  · rfl
  · rfl

theorem rejected_step {α : Type} (o : Opts) (s : Sys α) (a : Act α) (ha : a ≠ .authThrow) :
    (step o s a).rejected = s.rejected := by
  cases a with
  | enqueue e =>
    simp only [step]
    split
    · rfl
    · split
      · exact flushCall_rejected o _
      · exact scheduleFlush_rejected _
  | callFlush => exact flushCall_rejected o s
  | timerFire =>
    simp only [step]
    split
    · exact flushCall_rejected o _
    · rfl
  | authOk =>
    simp only [step]
    split
    · rfl
    · rfl
  | authThrow => exact absurd rfl ha
  | sendDone ok =>
    simp only [step]
    split
    · split
      · split
        · rfl
        · exact scheduleFlush_rejected _
      · exact scheduleFlush_rejected _
    · rfl
  | shutdown => rfl

/-- C6 (amended): init throws exactly when projectId or botId is
missing (absent, null or empty) or telegramBotId is not a positive
finite number; in steady state the public operations never raise into
application code — with the proviso that the flush promise rejects
exactly when the auth provider itself throws during resolution, so
along every trace without an auth-provider exception no flush
rejection is observable. -/
theorem C6_init_and_no_reject {α : Type} :
    (∀ c : JSConfig, exceptOk (init c) =
      (truthyOptStr c.projectId && truthyOptStr c.botId &&
        isPositiveFiniteNumber c.telegramBotId)) ∧
    (∀ (o : Opts) (acts : List (Act α)), (∀ a ∈ acts, a ≠ .authThrow) →
      (run o Sys.start acts).rejected = false) := by
  constructor
  · intro c
    cases htp : truthyOptStr c.projectId <;> cases htb : truthyOptStr c.botId <;>
      cases hpos : isPositiveFiniteNumber c.telegramBotId <;>
        simp [init, exceptOk, htp, htb, hpos]
  · intro o acts
    have hgen : ∀ (acts : List (Act α)) (s : Sys α), (∀ a ∈ acts, a ≠ .authThrow) →
        (run o s acts).rejected = s.rejected := by
      intro acts
      induction acts with
      | nil => intro s _; rfl
      | cons a rest ih =>
        intro s hall
        have h1 := rejected_step o s a (hall a (by simp))
        have h2 := ih (step o s a) (fun x hx => hall x (by simp [hx]))
        rw [show run o s (a :: rest) = run o (step o s a) rest from rfl, h2, h1]
    intro hall
    rw [hgen acts Sys.start hall]
    rfl

/-- Witness for C6: a valid config passes init, and a trace with an
enqueue, an explicit flush, auth resolution and a successful send —
no auth exception — shows no rejection. -/
theorem C6_init_and_no_reject_witness :
    exceptOk (init ⟨some ("p"), some ("b"), some (.fin 1), none, none, none, none, none⟩) =
      true ∧
    (run (⟨5000, 20, 500, 400, 2⟩ : Opts) Sys.start
      [.enqueue (0 : Nat), .callFlush, .authOk, .sendDone true]).rejected = false := by
  constructor
  · have h := (C6_init_and_no_reject (α := Nat)).1
      ⟨some ("p"), some ("b"), some (.fin 1), none, none, none, none, none⟩
    rw [h]
    decide
  · exact (C6_init_and_no_reject (α := Nat)).2 (⟨5000, 20, 500, 400, 2⟩ : Opts)
      [.enqueue 0, .callFlush, .authOk, .sendDone true] (by decide)

/-- C6 counterexample: with an auth provider that throws, an explicit
flush finds the queue nonempty, splices the batch, and the exception
escapes past the finally block — the flush promise rejects, against the
claim that no public operation ever throws or rejects for any auth
provider. -/
theorem C6_counterexample :
    (run (⟨5000, 20, 500, 400, 2⟩ : Opts) Sys.start
      [.enqueue (0 : Nat), .callFlush, .authThrow]).rejected = true := by
  decide

/-- Witness for C8: the second attempt succeeds within budget. -/
theorem C8_sendRequest_policy_witness :
    (1 ≤ 2 ∧ (fun j => if j = 1 then FetchOutcome.ok else FetchOutcome.fail) 1 =
      FetchOutcome.ok) ∧
    (sendRequest ⟨false, none, fun j => if j = 1 then .ok else .fail⟩ 2 100).result = true ∧
    (sendRequest ⟨false, none, fun j => if j = 1 then .ok else .fail⟩ 2 100).attempts = 2 := by
  have h := (C8_sendRequest_policy ⟨false, none, fun j => if j = 1 then .ok else .fail⟩
    2 100).2.2.2 1 (by decide) (by decide)
    (by intro i hi; interval_cases i <;> decide) (by simp)
  exact ⟨⟨by decide, by decide⟩, h.1, h.2⟩

/-- C1 (spec-modelled): for a client with dedupe integration, a track
call requesting dedupe (mode once or session selecting the adapter)
first asks the gate shouldSendOnce for the derived key; when it
answers false the event is dropped silently (storage and client state
unchanged, no error — the function is total); when it answers true
for a live client the event is enqueued and markSent is recorded; and
the client clearDedupeKey operation delegates to the admin clear of
the gate. -/
theorem C1_dedupe_facade {σ α : Type} (adapter : StorageAdapter σ) (st : σ) (o : Opts)
    (s : Sys α) (evt : α) (lk : String) (ttl now : Int) :
    (shouldSendOnce adapter st (makeKey PREFIX lk) ttl now = false →
      trackDedupe adapter st o s evt lk ttl now = (st, s)) ∧
    (shouldSendOnce adapter st (makeKey PREFIX lk) ttl now = true → s.alive = true →
      trackDedupe adapter st o s evt lk ttl now =
        (markSent adapter st (makeKey PREFIX lk) ttl now, step o s (.enqueue evt))) ∧
    (∀ (k : String) (n : Int), clearDedupeKey adapter st k n = adminClear adapter st k n) := by
  refine ⟨?_, ?_, fun k n => rfl⟩
  · intro h
    unfold trackDedupe
    dsimp only
    rw [h]
    rfl
  · intro h ha
    unfold trackDedupe
    dsimp only
    rw [h, ha]
    rfl

/-- Witness for C1: with the in-memory adapter, an allowed event is
enqueued and marked, and a second event under the same key is dropped
with state unchanged. -/
theorem C1_dedupe_facade_witness :
    shouldSendOnce memAdapter [] (makeKey PREFIX ("p:x")) 1000 0 = true ∧
    (Sys.start : Sys Nat).alive = true ∧
    trackDedupe memAdapter [] (⟨5000, 20, 500, 400, 2⟩ : Opts) (Sys.start : Sys Nat)
        7 ("p:x") 1000 0 =
      (markSent memAdapter [] (makeKey PREFIX ("p:x")) 1000 0,
        step (⟨5000, 20, 500, 400, 2⟩ : Opts) Sys.start (.enqueue 7)) ∧
    shouldSendOnce memAdapter (markSent memAdapter [] (makeKey PREFIX ("p:x")) 1000 0)
        (makeKey PREFIX ("p:x")) 1000 5 = false ∧
    trackDedupe memAdapter (markSent memAdapter [] (makeKey PREFIX ("p:x")) 1000 0)
        (⟨5000, 20, 500, 400, 2⟩ : Opts) (Sys.start : Sys Nat) 8 ("p:x") 1000 5 =
      (markSent memAdapter [] (makeKey PREFIX ("p:x")) 1000 0, (Sys.start : Sys Nat)) := by
  refine ⟨by decide, rfl, ?_, by decide, ?_⟩
  · exact (C1_dedupe_facade memAdapter [] (⟨5000, 20, 500, 400, 2⟩ : Opts)
      (Sys.start : Sys Nat) 7 ("p:x") 1000 0).2.1 (by decide) rfl
  · exact (C1_dedupe_facade memAdapter (markSent memAdapter [] (makeKey PREFIX ("p:x")) 1000 0)
      (⟨5000, 20, 500, 400, 2⟩ : Opts) (Sys.start : Sys Nat) 8 ("p:x") 1000 5).1 (by decide)

end Metriox